import Mathlib

/-!
Verification of the enhanced-JSON parser engine
(`plugins/parsers/enhancedjson/parser.go`).

The engine is embedded shallowly: JSON trees become an inductive type,
the dynamically typed Go values flowing through `convertType` become a
tagged variant, and the mutable `telegraf.Metric` field list becomes an
explicit association list threaded through the recursion.  The query
primitive (`gjson.GetBytes`) is an external black box and is passed in
as a function from query strings to optional JSON subtrees.
-/

namespace EnhancedJson

/-- A JSON tree, as surfaced by the external query primitive.  `null`
is a matched JSON null literal; a *missing* query result is modelled
separately as `Option.none` at the use sites. -/
inductive Json where
  | null
  | bool (b : Bool)
  | num (q : ℚ)
  | str (s : String)
  | arr (elems : List Json)
  | obj (entries : List (String × Json))
deriving Repr

/-- The dynamically typed Go value produced by `gjson.Result.Value()`
and by `convertType`.  JSON numbers always arrive as `float64`
(modelled as `ℚ`); `vint` is produced only by conversions.  Array and
object payloads are kept as raw JSON subtrees: the engine never
inspects a converted array/object value (`convertType` only reports
their kind in its error message). -/
inductive GoValue where
  | vnull
  | vbool (b : Bool)
  | vfloat (q : ℚ)
  | vint (n : ℤ)
  | vstr (s : String)
  | varr (elems : List Json)
  | vobj (entries : List (String × Json))
deriving Repr

/-- `gjson.Result.Value()` on the current subtree. -/
def Json.value : Json → GoValue
  | .null => .vnull
  | .bool b => .vbool b
  | .num q => .vfloat q
  | .str s => .vstr s
  | .arr xs => .varr xs
  | .obj kvs => .vobj kvs

/-- The Go `%T` type name of a dynamic value, used by the unsupported
source-kind error of `convertType`. -/
def GoValue.goTypeName : GoValue → String
  | .vnull => "<nil>"
  | .vbool _ => "bool"
  | .vfloat _ => "float64"
  | .vint _ => "int64"
  | .vstr _ => "string"
  | .varr _ => "[]interface \x7b\x7d"
  | .vobj _ => "map[string]interface \x7b\x7d"

/-- True iff the subtree is neither an array nor an object (a scalar
leaf for the purposes of the array expander). -/
def Json.isScalar : Json → Bool
  | .arr _ => false
  | .obj _ => false
  | _ => true

/-- Numeric value of a digit list, most significant first (non-digits
contribute their raw offset; callers guard with `Char.isDigit`). -/
def natOfDigits (cs : List Char) : ℕ :=
  cs.foldl (fun acc c => 10 * acc + (c.toNat - '0'.toNat)) 0

/-- Models `strconv.Atoi`: optional sign followed by a non-empty run
of decimal digits.  The model is unbounded where Go errors on 64-bit
overflow; no verified claim depends on overflow behaviour. -/
def atoi (s : String) : Option ℤ :=
  let parseDigits : List Char → Option ℤ := fun cs =>
    if cs.isEmpty then none
    else if cs.all Char.isDigit then some (natOfDigits cs : ℤ)
    else none
  match s.data with
  | '+' :: rest => parseDigits rest
  | '-' :: rest => (parseDigits rest).map (fun n => -n)
  | cs => parseDigits cs

/-- Models `strconv.ParseFloat` on plain decimal notation: optional
sign, digits, optional fractional part.  Exponents, hex floats,
infinities and NaN are omitted; no verified claim depends on them. -/
def parseFloatGo (s : String) : Option ℚ :=
  let signed : ℚ × List Char :=
    match s.data with
    | '-' :: rest => (-1, rest)
    | '+' :: rest => (1, rest)
    | cs => (1, cs)
  let ip := signed.2.takeWhile Char.isDigit
  let rest := signed.2.drop ip.length
  let frac : Option (List Char) :=
    match rest with
    | [] => some []
    | '.' :: t => if t.all Char.isDigit then some t else none
    | _ => none
  match frac with
  | none => none
  | some f =>
      if ip.isEmpty && f.isEmpty then none
      else some (signed.1 * ((natOfDigits ip : ℚ) +
        (natOfDigits f : ℚ) / (10 : ℚ) ^ f.length))

/-- Models `strconv.ParseBool`: the canonical boolean literal
spellings accepted by Go. -/
def parseBoolGo (s : String) : Option Bool :=
  if s = "1" ∨ s = "t" ∨ s = "T" ∨ s = "true" ∨ s = "TRUE" ∨ s = "True" then
    some true
  else if s = "0" ∨ s = "f" ∨ s = "F" ∨ s = "false" ∨ s = "FALSE" ∨ s = "False" then
    some false
  else none

/-- Go's `int64(f)` cast on a float: truncation toward zero. -/
def truncRat (q : ℚ) : ℤ :=
  if q < 0 then -(⌊-q⌋) else ⌊q⌋

/-- Abstracts Go's `fmt.Sprint` default formatting of a `float64`; no
verified claim depends on the exact rendering. -/
def formatFloatGo (q : ℚ) : String := toString q

/-- `convertType` (parser.go:362-422): convert a dynamic value parsed
from the input JSON to the type declared in the configuration.  Error
messages keep the Go wording with the single-quote decoration of the
field name dropped. -/
def convertType (input : GoValue) (desiredType : String) (name : String) :
    Except String GoValue :=
  match input with
  | .vstr s =>
      if desiredType ≠ "string" then
        match desiredType with
        | "int" =>
            match atoi s with
            | some r => .ok (.vint r)
            | none => .error ("Unable to convert field " ++ name ++ " to type int")
        | "float" =>
            match parseFloatGo s with
            | some r => .ok (.vfloat r)
            | none => .error ("Unable to convert field " ++ name ++ " to type float")
        | "bool" =>
            match parseBoolGo s with
            | some r => .ok (.vbool r)
            | none => .error ("Unable to convert field " ++ name ++ " to type bool")
        | _ => .ok input
      else .ok input
  | .vbool b =>
      if desiredType ≠ "bool" then
        match desiredType with
        | "string" => .ok (.vstr (if b then "true" else "false"))
        | "int" => .ok (.vint (if b then 1 else 0))
        | _ => .ok input
      else .ok input
  | .vfloat q =>
      if desiredType ≠ "float" then
        match desiredType with
        | "string" => .ok (.vstr (formatFloatGo q))
        | "int" => .ok (.vint (truncRat q))
        | "bool" =>
            if q = 0 then .ok (.vbool false)
            else if q = 1 then .ok (.vbool true)
            else .error ("Unable to convert field " ++ name ++ " to type bool")
        | _ => .ok input
      else .ok input
  | other =>
      .error ("unknown format " ++ other.goTypeName ++ " for field  " ++ name)

/-!  ## Metric records

Modelled from the spec: `telegraf.Metric` is external to the engine's
source.  Per the spec's data model, an `OutputMetric` holds a name and
a field map whose keys are insertion-ordered and unique, with later
writes to the same key overwriting in place.  Tags stay empty and the
timestamp comes uniformly from the injected clock, so neither is
carried in the model. -/

/-- One metric field, `(key, value)`. -/
abbrev Field := String × GoValue

/-- Modelled from the spec: `Metric.AddField` semantics of the
external metric type — overwrite in place if the key is present,
otherwise append. -/
def addFieldList : List Field → String → GoValue → List Field
  | [], k, v => [(k, v)]
  | (k0, v0) :: rest, k, v =>
      if k0 = k then (k, v) :: rest else (k0, v0) :: addFieldList rest k v

/-- Modelled from the spec: an output metric record (name plus
insertion-ordered field list). -/
structure Metric where
  name : String
  fields : List Field
deriving Repr

/-- `m.AddField(k, v)`. -/
def Metric.addField (m : Metric) (k : String) (v : GoValue) : Metric :=
  ⟨m.name, addFieldList m.fields k v⟩

/-- `for _, f := range src { m.AddField(f.Key, f.Value) }` — copy a
field list into a metric, one `AddField` per entry, in order. -/
def Metric.addFields (m : Metric) (fs : List Field) : Metric :=
  fs.foldl (fun acc kv => acc.addField kv.1 kv.2) m

/-- `MetricNode` (parser.go:44-49): the working row threaded through
expansion — the field name this branch contributes, its declared type,
the metric being built, and the current query result (`none` models a
missing result, `some t` a matched subtree). -/
structure MetricNode where
  rootFieldName : String
  desiredType : String
  metric : Metric
  result : Option Json
deriving Repr

/-- `BasicField` configuration entry (parser.go:31-36). -/
structure BasicField where
  query : String
  name : String
  type : String

/-- `ObjectField` configuration entry (parser.go:38-42).  The Go maps
are modelled as association lists (only lookups are performed). -/
structure ObjectField where
  query : String
  nameMap : List (String × String)
  typeMap : List (String × String)

/-- First-match lookup in an association list (Go map access). -/
def lookupStr : List (String × String) → String → Option String
  | [], _ => none
  | (k, v) :: rest, key => if k = key then some v else lookupStr rest key

/-- The last `.`-separated segment of a query, the default field name
(`strings.Split(query, "."); s[len(s)-1]`). -/
def lastSegment (q : String) : String :=
  (q.splitOn ".").getLastD ""

/-- `strings.ReplaceAll(s, " ", "")` — field-name sanitisation. -/
def removeSpaces (s : String) : String :=
  ⟨s.data.filter (fun c => c ≠ ' ')⟩

/-- `result.IsObject()` on a possibly missing query result. -/
def isObjectOpt : Option Json → Bool
  | some (.obj _) => true
  | _ => false

/-!  ## Array expander

`expandArray` (parser.go:179-253).  The `ForEach` loop over array
elements is `expandElems` below.  Two Go subtleties are reproduced
faithfully rather than cleaned up:

* inside the closure, `r, err := p.expandArray(...)` and
  `v, err := p.convertType(...)` declare fresh `err` variables that
  shadow the `err` captured from `expandArray`'s scope, so a failed
  nested expansion or conversion stops the iteration but leaves the
  outer error nil — the partial result list is returned with no
  error.  Only the object-element case assigns the captured `err`.
* the `MetricNode` built for a nested array (and for a scalar leaf)
  sets only `RootFieldName`, `Metric` and `Result`, so `DesiredType`
  resets to the zero value `""` below the first level.

The source's recursive `expandArray` call is made on a node whose
subtree is an array, so after the object/array dispatch at the top of
`expandArray` it lands back in this same loop; that one dispatch step
is inlined here to keep the recursion structural over the tree. -/
def expandElems (rootFieldName desiredType : String) (parent : Metric)
    (metricName : String) : List Json → Except String (List MetricNode)
  | [] => .ok []
  | val :: rest =>
    match val with
    | .obj _ => .error "encountered object"
    | .arr ys =>
        let m := (Metric.mk metricName []).addFields parent.fields
        match expandElems rootFieldName "" m metricName ys with
        | .error _ =>
            -- the recursive call's error lands in a shadowed variable:
            -- the loop stops and the rows accumulated so far are kept
            .ok []
        | .ok r =>
            match expandElems rootFieldName desiredType parent metricName rest with
            | .error e => .error e
            | .ok more => .ok (r ++ more)
    | _ =>
        let m := (Metric.mk metricName []).addFields parent.fields
        match convertType val.value desiredType rootFieldName with
        | .error _ =>
            -- conversion error also lands in a shadowed variable:
            -- stop, keep the rows accumulated so far
            .ok []
        | .ok cv =>
            let m := (m.addField rootFieldName cv).addFields parent.fields
            let n : MetricNode := ⟨rootFieldName, "", m, some val⟩
            match expandElems rootFieldName desiredType parent metricName rest with
            | .error e => .error e
            | .ok more => .ok (n :: more)
termination_by elems => sizeOf elems

/-- `expandArray` (parser.go:179-253): dispatch on the shape of the
current subtree. -/
def expandArray (result : MetricNode) (metricName : String) :
    Except String (List MetricNode) :=
  match result.result with
  | some (.obj _) => .error "encountered object"
  | some (.arr xs) =>
      expandElems result.rootFieldName result.desiredType result.metric metricName xs
  | some v =>
      match convertType v.value result.desiredType result.rootFieldName with
      | .error e => .error e
      | .ok cv =>
          .ok [{ result with metric := result.metric.addField result.rootFieldName cv }]
  | none => .ok []

/-!  ## Basic-field selection processor

`processBasicFields` (parser.go:86-176).  The query primitive is the
external black box `eval : String → Option Json`. -/

/-- The first phase of `processBasicFields`: evaluate every rule's
query, reject objects, expand arrays, and collect one row-group (the
expanded metrics) per rule, in rule order.  An empty group is kept,
exactly as the Go code appends a nil `metricField` slice. -/
def collectGroups (metricName : String) (eval : String → Option Json) :
    List BasicField → Except String (List (List Metric))
  | [] => .ok []
  | field :: rest =>
      let result := eval field.query
      if isObjectOpt result then .error "use object_field"
      else
        let fieldName := if field.name = "" then lastSegment field.query else field.name
        let mNode : MetricNode := ⟨fieldName, field.type, ⟨metricName, []⟩, result⟩
        match expandArray mNode metricName with
        | .error e => .error e
        | .ok nodes =>
            match collectGroups metricName eval rest with
            | .error e => .error e
            | .ok gs => .ok ((nodes.map (·.metric)) :: gs)

/-- Insert a group into a list already sorted ascending by row count.
Go uses the unstable `sort.Slice` with `len(i) < len(j)`; the order of
equal-sized groups is implementation-defined there, and this insertion
sort fixes one conforming order. -/
def insertGroup (g : List Metric) : List (List Metric) → List (List Metric)
  | [] => [g]
  | h :: t => if g.length < h.length then g :: h :: t else h :: insertGroup g t

/-- Sort row-groups ascending by row count. -/
def sortGroups : List (List Metric) → List (List Metric)
  | [] => []
  | g :: gs => insertGroup g (sortGroups gs)

/-- One step of the merge loop (parser.go:152-166): every row of the
previous (smaller or equal) group has its fields copied, row by row
in order, into every row of the next group. -/
def mergeStep (prev next : List Metric) : List Metric :=
  next.map (fun c => prev.foldl (fun acc p => acc.addFields p.fields) c)

/-- `processBasicFields` (parser.go:86-176): collect one row-group per
rule, sort the groups ascending by size, fold the cross-copy merge
left-to-right, and emit the rows of the final (largest) group. -/
def processBasicFields (metricName : String) (basicFields : List BasicField)
    (eval : String → Option Json) : Except String (List Metric) :=
  match collectGroups metricName eval basicFields with
  | .error e => .error e
  | .ok groups =>
      match sortGroups groups with
      | [] => .ok []
      | g :: gs => .ok (gs.foldl mergeStep g)

/-!  ## Object flattener

`combineObject` (parser.go:288-347) and `processObjectFields`
(parser.go:255-286).  The shared mutable metric of the Go code is
threaded explicitly: `combineChildren` models the `ForEach` closure,
returning the updated metric, the branch rows emitted so far, and
whether the iteration stopped early.  Faithful Go subtleties:

* `combineObject` itself never returns a non-nil error — the closure's
  `return false` stops the iteration, but the function always falls
  through to `return metrics, nil` (the conversion error even carries
  a `TODO: Return this error` comment in the source);
* the recursive call on an object-valued child shares the metric and
  its returned row list is discarded;
* an array-valued child is expanded from the metric state at that
  point of the iteration, with `RootFieldName` the original key and
  `DesiredType` left at the zero value. -/

/-- The key/value children `gjson.Result.ForEach` iterates: object
entries with their keys; array elements (and a non-JSON scalar, which
gjson passes back once as the sole value) with a zero-value key; and
nothing for a missing result. -/
def gjsonChildren : Option Json → List (String × Json)
  | none => []
  | some (.obj kvs) => kvs
  | some (.arr xs) => xs.map (fun x => ("", x))
  | some v => [("", v)]

/-- The body of `combineObject`'s `ForEach` loop.  Returns the metric
after the iteration, the branch rows appended along the way, and an
early-stop flag (set when the iterator returned `false`). -/
def combineChildren (rootFieldName : String)
    (nameMap typeMap : List (String × String)) (m : Metric) :
    List (String × Json) → Metric × List MetricNode × Bool
  | [] => (m, [], false)
  | (key, val) :: rest =>
      let fieldName :=
        if key ≠ "" then
          removeSpaces ((lookupStr nameMap key).getD key)
        else rootFieldName
      match val with
      | .arr ys =>
          let arrayNode : MetricNode := ⟨key, "", m, some (.arr ys)⟩
          match expandArray arrayNode m.name with
          | .error _ =>
              -- the iterator stops, but combineObject still returns nil error
              (m, [], true)
          | .ok bs =>
              let next := combineChildren rootFieldName nameMap typeMap m rest
              (next.1, bs ++ next.2.1, next.2.2)
      | .obj kvs =>
          -- recursive combineObject call on the child: it shares the
          -- metric and its returned row list is discarded; it never
          -- reports an error, so the iteration always continues
          let nested := combineChildren key nameMap typeMap m kvs
          combineChildren rootFieldName nameMap typeMap nested.1 rest
      | _ =>
          match lookupStr typeMap key with
          | some desiredType =>
              match convertType val.value desiredType key with
              | .error _ =>
                  -- TODO in the source: this error is not returned
                  (m, [], true)
              | .ok fv =>
                  combineChildren rootFieldName nameMap typeMap
                    (m.addField fieldName fv) rest
          | none =>
              combineChildren rootFieldName nameMap typeMap
                (m.addField fieldName val.value) rest
termination_by children => sizeOf children

/-- `combineObject` (parser.go:288-347): flatten the children into the
row's metric, then append the row itself.  The error component of the
result exists only to mirror the Go signature — it is always `ok`. -/
def combineObject (result : MetricNode)
    (nameMap typeMap : List (String × String)) :
    Except String (List MetricNode) :=
  let out := combineChildren result.rootFieldName nameMap typeMap
    result.metric (gjsonChildren result.result)
  .ok (out.2.1 ++ [{ result with metric := out.1 }])

/-- `processObjectFields` (parser.go:255-286): evaluate each object
rule's query, flatten it from a fresh root row, and concatenate all
resulting metrics in rule order. -/
def processObjectFields (metricName : String) (eval : String → Option Json) :
    List ObjectField → Except String (List Metric)
  | [] => .ok []
  | field :: rest =>
      let result := eval field.query
      let fieldName := lastSegment field.query
      let rootObject : MetricNode := ⟨fieldName, "", ⟨metricName, []⟩, result⟩
      match combineObject rootObject field.nameMap field.typeMap with
      | .error e => .error e
      | .ok ms =>
          match processObjectFields metricName eval rest with
          | .error e => .error e
          | .ok t => .ok (ms.map (·.metric) ++ t)

/-- Folding `AddField` over a source field list, starting from `m`. -/
def foldAdd (m : List Field) (fs : List Field) : List Field :=
  fs.foldl (fun acc kv => addFieldList acc kv.1 kv.2) m

/-- A depth-`dims.length` uniformly nested array whose innermost
scalars all equal `leaf`: an array of `n1` copies of the
`[n2, …, nD]`-nested array, bottoming out in the scalar `leaf`. -/
def buildNested (dims : List ℕ) (leaf : ℚ) : Json :=
  match dims with
  | [] => .num leaf
  | n :: rest => .arr (List.replicate n (buildNested rest leaf))

/-- The single row produced for each innermost scalar of a uniform
nested-array expansion started with accumulated fields `pf`. -/
def leafRow (mn f : String) (pf : List Field) (leaf : ℚ) : MetricNode :=
  ⟨f, "", ⟨mn, pf ++ [(f, .vfloat leaf)]⟩, some (.num leaf)⟩

/-!  ## Field-list lemmas

Basic facts about `AddField`/field copying used by the expansion
theorems. -/

lemma Metric.addFields_def (m : Metric) (fs : List Field) :
    m.addFields fs = ⟨m.name, foldAdd m.fields fs⟩ := by
  induction fs generalizing m with
  | nil => rfl
  | cons kv rest ih =>
      simpa [Metric.addFields, foldAdd] using ih (m.addField kv.1 kv.2)

lemma addFieldList_not_mem (m : List Field) (f : String) (v : GoValue)
    (h : f ∉ m.map Prod.fst) : addFieldList m f v = m ++ [(f, v)] := by
  induction m with
  | nil => rfl
  | cons kv rest ih =>
      obtain ⟨k0, v0⟩ := kv
      have h1 : k0 ≠ f := by rintro rfl; exact h (by simp)
      have h2 : f ∉ rest.map Prod.fst := fun hm => h (by simp [hm])
      simp [addFieldList, h1, ih h2]

lemma addFieldList_keys_mem (m : List Field) (f : String) (v : GoValue)
    (h : f ∈ m.map Prod.fst) :
    (addFieldList m f v).map Prod.fst = m.map Prod.fst := by
  induction m with
  | nil => simp at h
  | cons kv rest ih =>
      obtain ⟨k0, v0⟩ := kv
      by_cases hk : k0 = f
      · simp [addFieldList, hk]
      · have h2 : f ∈ rest.map Prod.fst := by
          rcases (by simpa using h) with h | h
          · exact absurd h.symm hk
          · simpa using h
        simp [addFieldList, hk, ih h2]

lemma foldAdd_cons_not_mem (k : String) (v : GoValue) (fs : List Field)
    (h : k ∉ fs.map Prod.fst) :
    ∀ m, foldAdd ((k, v) :: m) fs = (k, v) :: foldAdd m fs := by
  induction fs with
  | nil => intro m; rfl
  | cons kv rest ih =>
      intro m
      obtain ⟨k1, v1⟩ := kv
      have h1 : k1 ≠ k := by rintro rfl; exact h (by simp)
      have h2 : k ∉ rest.map Prod.fst := fun hm => h (by simp [hm])
      simp only [foldAdd, List.foldl_cons, addFieldList, if_neg (Ne.symm h1)]
      exact ih h2 (addFieldList m k1 v1)

/-- Overwriting fold: if `m'` has exactly the keys of `fs` (in order)
then re-adding all of `fs` onto `m' ++ t` restores `fs ++ t`. -/
lemma foldAdd_overwrite (fs : List Field) (hnd : (fs.map Prod.fst).Nodup) :
    ∀ (m' t : List Field), m'.map Prod.fst = fs.map Prod.fst →
      foldAdd (m' ++ t) fs = fs ++ t := by
  induction fs with
  | nil =>
      intro m' t hk
      simp at hk
      simp [foldAdd, hk]
  | cons kv rest ih =>
      intro m' t hk
      obtain ⟨k0, v0⟩ := kv
      cases m' with
      | nil => simp at hk
      | cons hd m'' =>
          obtain ⟨k1, w1⟩ := hd
          simp at hk
          obtain ⟨hk1, hkeys⟩ := hk
          simp at hnd
          have hnotin : k0 ∉ rest.map Prod.fst := by
            intro hm
            rcases (by simpa using hm) with ⟨x, hx⟩
            exact hnd.1 x hx
          simp only [foldAdd, List.foldl_cons, List.cons_append, addFieldList, hk1,
            if_pos rfl, if_true]
          have hstep := foldAdd_cons_not_mem k0 v0 rest hnotin (m'' ++ t)
          simp only [foldAdd] at hstep
          have hrest := ih hnd.2 m'' t hkeys
          simp only [foldAdd] at hrest
          rw [hstep, hrest]

/-- Copying a field list with unique keys into an empty metric
reproduces it verbatim. -/
lemma foldAdd_nil (fs : List Field) (hnd : (fs.map Prod.fst).Nodup) :
    foldAdd [] fs = fs := by
  induction fs with
  | nil => rfl
  | cons kv rest ih =>
      obtain ⟨k0, v0⟩ := kv
      simp at hnd
      have hnotin : k0 ∉ rest.map Prod.fst := by
        intro hm
        rcases (by simpa using hm) with ⟨x, hx⟩
        exact hnd.1 x hx
      have hstep := foldAdd_cons_not_mem k0 v0 rest hnotin []
      have hrest := ih hnd.2
      simp only [foldAdd] at hstep hrest ⊢
      simp only [List.foldl_cons, addFieldList]
      rw [hstep, hrest]

/-!  ## Array-expansion lemmas -/

lemma expandElems_cons_scalar (f dt pn mn : String) (pf : List Field)
    (val : Json) (cv : GoValue) (rest : List Json)
    (hscal : val.isScalar = true)
    (hconv : convertType val.value dt f = .ok cv) :
    expandElems f dt ⟨pn, pf⟩ mn (val :: rest)
      = (expandElems f dt ⟨pn, pf⟩ mn rest).map
          (fun more =>
            (⟨f, "", (((Metric.mk mn []).addFields pf).addField f cv).addFields pf,
              some val⟩ : MetricNode) :: more) := by
  cases val with
  | null =>
      simp [expandElems, hconv]
      cases expandElems f dt ⟨pn, pf⟩ mn rest <;> simp [Except.map]
  | bool b =>
      simp [expandElems, hconv]
      cases expandElems f dt ⟨pn, pf⟩ mn rest <;> simp [Except.map]
  | num q =>
      simp [expandElems, hconv]
      cases expandElems f dt ⟨pn, pf⟩ mn rest <;> simp [Except.map]
  | str s =>
      simp [expandElems, hconv]
      cases expandElems f dt ⟨pn, pf⟩ mn rest <;> simp [Except.map]
  | arr ys => simp [Json.isScalar] at hscal
  | obj kvs => simp [Json.isScalar] at hscal

lemma expandElems_cons_arr_ok (f dt pn mn : String) (pf : List Field)
    (ys rest : List Json) (r : List MetricNode)
    (h : expandElems f "" ((Metric.mk mn []).addFields pf) mn ys = .ok r) :
    expandElems f dt ⟨pn, pf⟩ mn (.arr ys :: rest)
      = (expandElems f dt ⟨pn, pf⟩ mn rest).map (fun more => r ++ more) := by
  simp [expandElems, h]
  cases expandElems f dt ⟨pn, pf⟩ mn rest <;> simp [Except.map]

/-- The copied-then-overwritten metric of a scalar array element when
the contributed field name is fresh: the accumulated fields, then the
converted value appended. -/
lemma leafMetric_not_mem (mn f : String) (pf : List Field) (cv : GoValue)
    (hnd : (pf.map Prod.fst).Nodup) (hf : f ∉ pf.map Prod.fst) :
    (((Metric.mk mn []).addFields pf).addField f cv).addFields pf
      = ⟨mn, pf ++ [(f, cv)]⟩ := by
  have h1 : (Metric.mk mn []).addFields pf = ⟨mn, pf⟩ := by
    rw [Metric.addFields_def, foldAdd_nil pf hnd]
  rw [h1]
  show (Metric.mk mn (addFieldList pf f cv)).addFields pf = _
  rw [addFieldList_not_mem pf f cv hf, Metric.addFields_def,
    foldAdd_overwrite pf hnd pf [(f, cv)] rfl]

/-- The copied-then-overwritten metric of a scalar array element when
the contributed field name already occurs among the accumulated
fields: the second copy restores the accumulated value and the
converted value is lost. -/
lemma leafMetric_mem (mn f : String) (pf : List Field) (cv : GoValue)
    (hnd : (pf.map Prod.fst).Nodup) (hf : f ∈ pf.map Prod.fst) :
    (((Metric.mk mn []).addFields pf).addField f cv).addFields pf
      = ⟨mn, pf⟩ := by
  have h1 : (Metric.mk mn []).addFields pf = ⟨mn, pf⟩ := by
    rw [Metric.addFields_def, foldAdd_nil pf hnd]
  rw [h1]
  show (Metric.mk mn (addFieldList pf f cv)).addFields pf = _
  rw [Metric.addFields_def]
  have h2 := foldAdd_overwrite pf hnd (addFieldList pf f cv) []
    (addFieldList_keys_mem pf f cv hf)
  simpa using h2

/-- Expanding `n` copies of a `dims`-nested array contributes exactly
`n * dims.prod` rows, each the accumulated fields plus one innermost
scalar. -/
lemma expandElems_buildNested (f mn : String) (leaf : ℚ) :
    ∀ (dims : List ℕ) (n : ℕ) (pn : String) (pf : List Field),
      (pf.map Prod.fst).Nodup → f ∉ pf.map Prod.fst →
      expandElems f "" ⟨pn, pf⟩ mn (List.replicate n (buildNested dims leaf))
        = .ok (List.replicate (n * dims.prod) (leafRow mn f pf leaf)) := by
  intro dims
  induction dims with
  | nil =>
      intro n
      induction n with
      | zero => intro pn pf hnd hf; simp [expandElems]
      | succ k ihn =>
          intro pn pf hnd hf
          have ihn' := ihn pn pf hnd hf
          simp only [buildNested] at ihn' ⊢
          rw [List.replicate_succ]
          rw [expandElems_cons_scalar f "" pn mn pf (.num leaf) (.vfloat leaf) _
            (by simp [Json.isScalar]) (by simp [convertType, Json.value])]
          rw [ihn']
          simp [Except.map, leafRow, leafMetric_not_mem mn f pf (.vfloat leaf) hnd hf,
            List.replicate_succ, Nat.succ_mul]
  | cons d rest ihd =>
      intro n
      induction n with
      | zero => intro pn pf hnd hf; simp [expandElems]
      | succ k ihn =>
          intro pn pf hnd hf
          have ihn' := ihn pn pf hnd hf
          have hparent : (Metric.mk mn []).addFields pf = ⟨mn, pf⟩ := by
            rw [Metric.addFields_def, foldAdd_nil pf hnd]
          have hnested :
              expandElems f "" ((Metric.mk mn []).addFields pf) mn
                (List.replicate d (buildNested rest leaf))
                = .ok (List.replicate (d * rest.prod) (leafRow mn f pf leaf)) := by
            rw [hparent]; exact ihd d mn pf hnd hf
          simp only [buildNested] at ihn' ⊢
          rw [List.replicate_succ]
          rw [expandElems_cons_arr_ok f "" pn mn pf _ _ _ hnested]
          rw [ihn']
          have harith : d * rest.prod + k * (d * rest.prod)
              = (k + 1) * (d :: rest).prod := by
            simp [List.prod_cons]; ring
          simp [Except.map, ← List.replicate_add, harith]

/-- With no declared type, a non-null scalar passes through the
converter unchanged (strings, booleans and numbers hit the permissive
fallback; null hits the unsupported-source-kind error). -/
lemma convertType_empty_scalar (x : Json) (name : String)
    (hscal : x.isScalar = true) (hnull : x ≠ .null) :
    convertType x.value "" name = .ok x.value := by
  cases x with
  | null => exact absurd rfl hnull
  | bool b => simp [convertType, Json.value]
  | num q => simp [convertType, Json.value]
  | str s => simp [convertType, Json.value]
  | arr ys => simp [Json.isScalar] at hscal
  | obj kvs => simp [Json.isScalar] at hscal

/-- Expanding a flat list of non-null scalars from an empty metric
yields one row per element, in document order, each carrying just that
element's value. -/
lemma expandElems_scalars (f pn mn : String) (xs : List Json)
    (hx : ∀ x ∈ xs, x.isScalar = true ∧ x ≠ .null) :
    expandElems f "" ⟨pn, []⟩ mn xs
      = .ok (xs.map fun x =>
          (⟨f, "", ⟨mn, [(f, x.value)]⟩, some x⟩ : MetricNode)) := by
  induction xs with
  | nil => simp [expandElems]
  | cons x rest ih =>
      obtain ⟨hs, hn⟩ := hx x (by simp)
      rw [expandElems_cons_scalar f "" pn mn [] x x.value _ hs
          (convertType_empty_scalar x f hs hn),
        ih (fun y hy => hx y (by simp [hy]))]
      simp [Except.map, Metric.addFields, Metric.addField, addFieldList]

/-!  ## Processor lemmas -/

lemma collectGroups_append_ok (name : String) (eval : String → Option Json)
    (pre : List BasicField) (l : List BasicField) (gs : List (List Metric))
    (hpre : collectGroups name eval pre = .ok gs) :
    collectGroups name eval (pre ++ l)
      = (collectGroups name eval l).map (fun gs2 => gs ++ gs2) := by
  induction pre generalizing gs with
  | nil =>
      simp [collectGroups] at hpre
      subst hpre
      simp
      cases collectGroups name eval l <;> simp [Except.map]
  | cons field rest ih =>
      rw [List.cons_append]
      simp only [collectGroups] at hpre ⊢
      by_cases hobj : isObjectOpt (eval field.query) = true
      · simp [hobj] at hpre
      · simp only [hobj, if_neg, Bool.false_eq_true, if_false] at hpre ⊢
        cases hexp : expandArray ⟨(if field.name = "" then lastSegment field.query
            else field.name), field.type, ⟨name, []⟩, eval field.query⟩ name with
        | error e => rw [hexp] at hpre; simp at hpre
        | ok nodes =>
            rw [hexp] at hpre
            cases hrest : collectGroups name eval rest with
            | error e => rw [hrest] at hpre; simp at hpre
            | ok gs0 =>
                rw [hrest] at hpre
                simp at hpre
                rw [ih gs0 hrest]
                cases collectGroups name eval l <;> simp [Except.map, ← hpre]

/-!  ## Claims -/

/-- C1: the claim says any failure while iterating an array's elements
makes `expandArray` return the first error and no rows.  The code does
this only for object elements: a failed type conversion (and a failed
nested recursion) lands in a shadowed `err` variable, so the iteration
stops and the rows accumulated so far are returned with a nil error.
Evaluated at the failing inputs: `[1, "x"]` with declared type `int`
returns one row and no error although converting `"x"` fails, and
`[1, [ {} ], 2]` returns one row and no error although the nested
expansion fails on the object element. -/
theorem c1_failure_returns_partial_rows :
    (convertType (Json.str "x").value "int" "f").isOk = false
    ∧ expandArray ⟨"f", "int", ⟨"m", []⟩, some (.arr [.num 1, .str "x"])⟩ "m"
        = .ok [⟨"f", "", ⟨"m", [("f", .vint 1)]⟩, some (.num 1)⟩]
    ∧ expandArray ⟨"f", "", ⟨"m", []⟩,
          some (.arr [.num 1, .arr [.obj []], .num 2])⟩ "m"
        = .ok [⟨"f", "", ⟨"m", [("f", .vfloat 1)]⟩, some (.num 1)⟩] := by
  refine ⟨by simp [convertType, Json.value, atoi, natOfDigits, Except.isOk, Except.toBool], ?_, ?_⟩
  · simp [expandArray, expandElems, convertType, atoi, natOfDigits, truncRat,
      Metric.addFields, Metric.addField, addFieldList, Json.value]
  · simp [expandArray, expandElems, convertType,
      Metric.addFields, Metric.addField, addFieldList, Json.value]

/-- C2: the claim says a failed declared-type conversion of a scalar
child makes the flatten operation return an error and the object-field
processor emit no metrics.  In the code `combineObject` never returns
a non-nil error (the conversion error is dropped with a source TODO),
so the processor still emits the root metric.  Evaluated at the
failing input `{"a": "x"}` with type map `a -> int`: converting `"x"`
fails, yet the processor returns one (empty-field) metric and no
error. -/
theorem c2_flatten_error_swallowed :
    (convertType (Json.str "x").value "int" "a").isOk = false
    ∧ processObjectFields "m"
        (fun q => if q = "o" then some (.obj [("a", .str "x")]) else none)
        [⟨"o", [], [("a", "int")]⟩]
      = .ok [⟨"m", []⟩] := by
  constructor
  · simp [convertType, Json.value, atoi, natOfDigits, Except.isOk, Except.toBool]
  · simp [processObjectFields, combineObject, combineChildren, gjsonChildren,
      convertType, Json.value, lookupStr, atoi, natOfDigits]

/-- C3: two basic-field rules whose queries yield a 2-element and a
3-element array produce exactly 3 output rows — the larger group's
rows — each carrying the larger rule's own field plus the smaller
rule's field broadcast onto it by the ascending-size cross-copy fold
(the last of A's rows wins the overwrite); A's own rows are not
emitted. -/
theorem c3_cross_copy_merge (a1 a2 b1 b2 b3 : ℚ) :
    processBasicFields "m"
        [⟨"qa", "fa", ""⟩, ⟨"qb", "fb", ""⟩]
        (fun q => if q = "qa" then some (.arr [.num a1, .num a2])
          else if q = "qb" then some (.arr [.num b1, .num b2, .num b3]) else none)
      = .ok [⟨"m", [("fb", .vfloat b1), ("fa", .vfloat a2)]⟩,
             ⟨"m", [("fb", .vfloat b2), ("fa", .vfloat a2)]⟩,
             ⟨"m", [("fb", .vfloat b3), ("fa", .vfloat a2)]⟩] := by
  simp [processBasicFields, collectGroups, isObjectOpt, expandArray, expandElems,
    convertType, Json.value, Metric.addFields, Metric.addField, addFieldList,
    sortGroups, insertGroup, mergeStep]

/-- C4 counterexample: with an empty declared type, a value whose
source kind is not string/bool/float is not returned unchanged — the
converter hits the unsupported-source-kind error (here on null). -/
theorem c4_counterexample :
    convertType .vnull "" "f" ≠ .ok .vnull := by
  simp [convertType, GoValue.goTypeName]

/-- C4 amended: with an empty declared type the converter returns
string, boolean and float values unchanged, but any other source kind
(e.g. null) still fails with the unsupported-source-kind error. -/
theorem c4_amended (name s : String) (b : Bool) (q : ℚ) :
    convertType (.vstr s) "" name = .ok (.vstr s)
    ∧ convertType (.vbool b) "" name = .ok (.vbool b)
    ∧ convertType (.vfloat q) "" name = .ok (.vfloat q)
    ∧ (convertType .vnull "" name).isOk = false := by
  refine ⟨by simp [convertType], by simp [convertType], by simp [convertType],
    by simp [convertType, Except.isOk, Except.toBool]⟩

/-- C5: (1) a basic-field rule over a flat array of (non-null)
scalars produces exactly one output metric per element, in document
order, each carrying that element's value under the rule's field
name; (2) expanding a depth-D nested array with branching factors
`d :: rest` produces exactly `(d :: rest).prod` rows, each holding the
fields accumulated before expansion began plus exactly one innermost
scalar. -/
theorem c5_expansion_counts :
    (∀ (name fq fname : String) (xs : List Json), fname ≠ "" →
      (∀ x ∈ xs, x.isScalar = true ∧ x ≠ .null) →
      processBasicFields name [⟨fq, fname, ""⟩]
          (fun q => if q = fq then some (.arr xs) else none)
        = .ok (xs.map fun x => (⟨name, [(fname, x.value)]⟩ : Metric)))
    ∧ (∀ (f mn pn : String) (pf : List Field) (d : ℕ) (rest : List ℕ) (leaf : ℚ),
      (pf.map Prod.fst).Nodup → f ∉ pf.map Prod.fst →
      expandArray ⟨f, "", ⟨pn, pf⟩, some (buildNested (d :: rest) leaf)⟩ mn
        = .ok (List.replicate ((d :: rest).prod) (leafRow mn f pf leaf))) := by
  constructor
  · intro name fq fname xs hname hx
    simp only [processBasicFields, collectGroups, isObjectOpt, ite_true, if_true,
      eq_self_iff_true, if_neg hname]
    rw [show (expandArray ⟨fname, "", ⟨name, []⟩, some (.arr xs)⟩ name)
      = expandElems fname "" ⟨name, []⟩ name xs from rfl]
    rw [expandElems_scalars fname name name xs hx]
    simp [sortGroups, insertGroup]
  · intro f mn pn pf d rest leaf hnd hf
    rw [show (expandArray ⟨f, "", ⟨pn, pf⟩, some (buildNested (d :: rest) leaf)⟩ mn)
      = expandElems f "" ⟨pn, pf⟩ mn (List.replicate d (buildNested rest leaf)) from rfl]
    rw [expandElems_buildNested f mn leaf rest d pn pf hnd hf]
    simp [List.prod_cons]

/-- C5 witness: the theorem applied at a 2-element flat array and at a
2×2 nested array over accumulated field `g`. -/
theorem c5_expansion_counts_witness :
    processBasicFields "m" [⟨"q", "f", ""⟩]
        (fun q => if q = "q" then some (.arr [.num 1, .num 2]) else none)
      = .ok [⟨"m", [("f", .vfloat 1)]⟩, ⟨"m", [("f", .vfloat 2)]⟩]
    ∧ expandArray ⟨"f", "", ⟨"p", [("g", .vfloat 5)]⟩,
          some (buildNested [2, 2] 7)⟩ "m"
      = .ok (List.replicate 4
          ⟨"f", "", ⟨"m", [("g", .vfloat 5), ("f", .vfloat 7)]⟩, some (.num 7)⟩) := by
  constructor
  · have h := c5_expansion_counts.1 "m" "q" "f" [.num 1, .num 2]
      (by decide) (by simp [Json.isScalar])
    simpa [Json.value] using h
  · have h := c5_expansion_counts.2 "f" "m" "p" [("g", .vfloat 5)] 2 [2] 7
      (by simp) (by simp)
    simpa [leafRow] using h

/-- C6: flattening `{"a":1,"items":[10,20]}` with empty name/type maps
yields exactly three metrics: the two array-branch metrics
`{a:1, items:10}` and `{a:1, items:20}`, plus the root metric `{a:1}`,
all independent entries of the output. -/
theorem c6_object_with_array_child :
    processObjectFields "m"
        (fun q => if q = "obj"
          then some (.obj [("a", .num 1), ("items", .arr [.num 10, .num 20])])
          else none)
        [⟨"obj", [], []⟩]
      = .ok [⟨"m", [("a", .vfloat 1), ("items", .vfloat 10)]⟩,
             ⟨"m", [("a", .vfloat 1), ("items", .vfloat 20)]⟩,
             ⟨"m", [("a", .vfloat 1)]⟩] := by
  simp [processObjectFields, combineObject, combineChildren, gjsonChildren,
    expandArray, expandElems, convertType, Json.value, lookupStr,
    Metric.addFields, Metric.addField, addFieldList, removeSpaces]

/-- C7 counterexample: `convert(3.0, "bool")` is not `true` — floats
other than 0 and 1 fail boolean conversion. -/
theorem c7_counterexample :
    convertType (.vfloat 3) "bool" "f" ≠ .ok (.vbool true) := by
  simp +decide [convertType]

/-- C7 amended: the converter satisfies the reference examples with
`convert(3.0,"bool")` corrected to a conversion error (float→bool
succeeds only for 0 and 1, e.g. `convert(1.0,"bool") = true`);
`convert("42","int") = 42`, `convert(true,"int") = 1`,
`convert(3.5,"bool")` and `convert("x","int")` fail, and float→int
truncates toward zero rather than rounding. -/
theorem c7_amended (name : String) :
    convertType (.vstr "42") "int" name = .ok (.vint 42)
    ∧ convertType (.vbool true) "int" name = .ok (.vint 1)
    ∧ convertType (.vfloat 1) "bool" name = .ok (.vbool true)
    ∧ (convertType (.vfloat 3) "bool" name).isOk = false
    ∧ (convertType (.vfloat (7 / 2)) "bool" name).isOk = false
    ∧ (convertType (.vstr "x") "int" name).isOk = false
    ∧ convertType (.vfloat (7 / 2)) "int" name = .ok (.vint 3)
    ∧ convertType (.vfloat (-(7 / 2))) "int" name = .ok (.vint (-3)) := by
  refine ⟨?_, ?_, ?_, ?_, ?_, ?_, ?_, ?_⟩
  · have : atoi "42" = some 42 := by decide
    simp [convertType, this]
  · simp [convertType]
  · simp +decide [convertType]
  · simp +decide [convertType, Except.isOk, Except.toBool]
  · simp +decide [convertType, Except.isOk, Except.toBool]
    norm_num
  · have : atoi "x" = none := by decide
    simp [convertType, this, Except.isOk, Except.toBool]
  · simp +decide [convertType, truncRat]
    norm_num
  · simp +decide [convertType, truncRat]
    norm_num

/-- C8: a basic-field rule whose query evaluates to an object makes
the whole basic-field processor fail with the "use object selection
instead" error and return no metrics, before that rule is expanded and
regardless of any later rules in the list. -/
theorem c8_object_result_fails_fast (name : String)
    (eval : String → Option Json) (pre : List BasicField) (f : BasicField)
    (rest : List BasicField) (gs : List (List Metric))
    (hpre : collectGroups name eval pre = .ok gs)
    (hobj : isObjectOpt (eval f.query) = true) :
    processBasicFields name (pre ++ f :: rest) eval
      = .error "use object_field" := by
  have hl : collectGroups name eval (f :: rest) = .error "use object_field" := by
    simp [collectGroups, hobj]
  rw [processBasicFields, collectGroups_append_ok name eval pre (f :: rest) gs hpre,
    hl]
  simp [Except.map]

/-- C8 witness: a two-rule list whose first rule hits an object. -/
theorem c8_object_result_fails_fast_witness :
    processBasicFields "m" [⟨"q", "", ""⟩, ⟨"r", "", ""⟩]
        (fun _ => some (.obj []))
      = .error "use object_field" := by
  have h := c8_object_result_fails_fast "m" (fun _ => some (.obj []))
    [] ⟨"q", "", ""⟩ [⟨"r", "", ""⟩] [] rfl rfl
  simpa using h

/-- C9: an object-field rule whose query matches nothing still emits
exactly one metric — the root row's metric with an empty field set —
while a basic-field rule with a missing query contributes zero rows. -/
theorem c9_missing_query_root_metric (name q bn bt : String)
    (nm tm : List (String × String)) (eval : String → Option Json)
    (h : eval q = none) :
    processObjectFields name eval [⟨q, nm, tm⟩] = .ok [⟨name, []⟩]
    ∧ processBasicFields name [⟨q, bn, bt⟩] eval = .ok [] := by
  constructor
  · simp [processObjectFields, h, combineObject, combineChildren, gjsonChildren]
  · simp [processBasicFields, collectGroups, h, isObjectOpt, expandArray,
      sortGroups, insertGroup]

/-- C9 witness: the theorem applied at a query the evaluator does not
match. -/
theorem c9_missing_query_root_metric_witness :
    processObjectFields "m" (fun _ => none) [⟨"q", [], []⟩] = .ok [⟨"m", []⟩]
    ∧ processBasicFields "m" [⟨"q", "f", ""⟩] (fun _ => none) = .ok [] :=
  c9_missing_query_root_metric "m" "q" "f" "" [] [] (fun _ => none) rfl

/-- C10: in the scalar-leaf branch of array expansion the accumulated
fields are copied into the branch metric a second time after the
converted leaf value is added, so when the accumulated fields already
contain the row's field name the accumulated value overwrites the
converted leaf value: the emitted metric's fields are exactly the
accumulated fields, and the converted value is gone. -/
theorem c10_second_copy_overwrites (f dt pn mn : String) (pf : List Field)
    (x : Json) (cv : GoValue)
    (hnd : (pf.map Prod.fst).Nodup) (hf : f ∈ pf.map Prod.fst)
    (hscal : x.isScalar = true)
    (hconv : convertType x.value dt f = .ok cv) :
    expandArray ⟨f, dt, ⟨pn, pf⟩, some (.arr [x])⟩ mn
      = .ok [⟨f, "", ⟨mn, pf⟩, some x⟩] := by
  rw [show (expandArray ⟨f, dt, ⟨pn, pf⟩, some (.arr [x])⟩ mn)
    = expandElems f dt ⟨pn, pf⟩ mn [x] from rfl]
  rw [expandElems_cons_scalar f dt pn mn pf x cv [] hscal hconv]
  rw [leafMetric_mem mn f pf cv hnd hf]
  simp [expandElems, Except.map]

/-- C10 witness: accumulated field `f = 5`; the leaf value 7 converts
fine but the emitted metric still carries 5 under `f`. -/
theorem c10_second_copy_overwrites_witness :
    expandArray ⟨"f", "", ⟨"p", [("f", .vfloat 5)]⟩, some (.arr [.num 7])⟩ "m"
      = .ok [⟨"f", "", ⟨"m", [("f", .vfloat 5)]⟩, some (.num 7)⟩] :=
  c10_second_copy_overwrites "f" "" "p" "m" [("f", .vfloat 5)] (.num 7)
    (.vfloat 7) (by simp) (by simp) (by simp [Json.isScalar])
    (by simp [convertType, Json.value])

end EnhancedJson
